import Mathlib

/-!
Verification development for the cross-image instance matching engine of the
ClearCartAI repository.

The embedding follows the source files:
* `src/ean_system/sam2_segmenter.py` — `mask_to_bbox`, `bbox_iou`;
* `src/ean_system/dinov2_embedder.py` — `compute_ffa_embedding`,
  `compute_batch_ffa_embeddings`, `batch_cosine_similarity`;
* `src/matcher.py` — `InstanceMatcher.__init__`, `match_in_image`, `_nms`,
  `match_across_images`;
* `src/config.py` — the matching configuration defaults.

Python floats are modelled as exact rationals where only ordering and field
arithmetic matter (similarities, box coordinates, thresholds) and as real
numbers where a square root is taken (the L2 normalisation of descriptors).
NumPy boolean masks are lists of lists of booleans; a mask whose array shape
is not two-dimensional is the `badShape` constructor.  A Python exception
that can escape a function is modelled with `Except`: `Except.error`
corresponds to an uncaught exception propagating to the caller.
-/

namespace ClearCart

/-! ### Geometry: bounding boxes (`sam2_segmenter.py`, lines 173-196) -/

/-- An axis-aligned box `[x1, y1, x2, y2]`, as the 4-vectors returned by
`mask_to_bbox` and consumed by `bbox_iou`.  Coordinates are rationals
(Python floats / ints). -/
structure Box where
  x1 : ℚ
  y1 : ℚ
  x2 : ℚ
  y2 : ℚ
deriving DecidableEq, Repr

/-- Intersection term of `bbox_iou`:
`max(0, x2 - x1) * max(0, y2 - y1)` over the clipped coordinates. -/
def interArea (b1 b2 : Box) : ℚ :=
  max 0 (min b1.x2 b2.x2 - max b1.x1 b2.x1) * max 0 (min b1.y2 b2.y2 - max b1.y1 b2.y1)

/-- Signed area term `(x2 - x1) * (y2 - y1)` of one box, as in `bbox_iou`. -/
def boxArea (b : Box) : ℚ :=
  (b.x2 - b.x1) * (b.y2 - b.y1)

/-- Union term of `bbox_iou`: `area1 + area2 - intersection`. -/
def unionArea (b1 b2 : Box) : ℚ :=
  boxArea b1 + boxArea b2 - interArea b1 b2

/-- `bbox_iou(box1, box2)`: `intersection / union if union > 0 else 0`. -/
def bbox_iou (b1 b2 : Box) : ℚ :=
  if 0 < unionArea b1 b2 then interArea b1 b2 / unionArea b1 b2 else 0

/-- Two half-open axis-aligned boxes are disjoint when their extents do not
overlap on the x axis or on the y axis. -/
def boxDisjoint (b1 b2 : Box) : Prop :=
  min b1.x2 b2.x2 ≤ max b1.x1 b2.x1 ∨ min b1.y2 b2.y2 ≤ max b1.y1 b2.y1

/-! ### `mask_to_bbox` (`sam2_segmenter.py`, lines 173-181) -/

/-- The integer box `[x1, y1, x2, y2]` returned by `mask_to_bbox`. -/
structure NatBox where
  x1 : ℕ
  y1 : ℕ
  x2 : ℕ
  y2 : ℕ
deriving DecidableEq, Repr

/-- Cast an integer box to a rational box (NumPy int arrays feed the float
arithmetic of `bbox_iou` unchanged). -/
def NatBox.toBox (b : NatBox) : Box :=
  ⟨(b.x1 : ℚ), (b.y1 : ℚ), (b.x2 : ℚ), (b.y2 : ℚ)⟩

/-- Index of the first `true` in a boolean vector: `np.where(v)[0][0]`.
Returns the length of the list when there is no `true` (the Python code
only evaluates it after checking `rows.any()`). -/
def firstTrue : List Bool → ℕ
  | [] => 0
  | b :: l => if b then 0 else firstTrue l + 1

/-- Index of the last `true` in a boolean vector: `np.where(v)[0][-1]`. -/
def lastTrue (l : List Bool) : ℕ :=
  l.length - 1 - firstTrue l.reverse

/-- Width of a 2-D mask, `mask.shape[1]` of a rectangular NumPy array. -/
def maskWidth (m : List (List Bool)) : ℕ :=
  (m.headD []).length

/-- `mask_to_bbox(mask)`: per-row ors (`np.any(mask, axis=1)`), per-column
ors (`np.any(mask, axis=0)`), then the first/last true indices; an all-false
mask returns `[0, 0, 0, 0]`.  The returned box is `[x1, y1, x2+1, y2+1]`. -/
def mask_to_bbox (m : List (List Bool)) : NatBox :=
  let rows := m.map fun r => r.any id
  let cols := (List.range (maskWidth m)).map fun j => m.any fun r => r.getD j false
  if rows.any id then
    ⟨firstTrue cols, firstTrue rows, lastTrue cols + 1, lastTrue rows + 1⟩
  else ⟨0, 0, 0, 0⟩

/-- Pixel `mask[i][j]` of a 2-D boolean mask (out-of-range reads as false). -/
def maskPixel (m : List (List Bool)) (i j : ℕ) : Bool :=
  (m.getD i []).getD j false

/-! ### Matching configuration (`config.py`, lines 33-36, and
`InstanceMatcher.__init__`, `matcher.py` lines 54-65) -/

/-- `SIMILARITY_THRESHOLD` default `0.65`. -/
def SIMILARITY_THRESHOLD : ℚ := 13 / 20

/-- `TOP_K_MATCHES` default `3`. -/
def TOP_K_MATCHES : ℤ := 3

/-- `NMS_IOU_THRESHOLD` default `0.5`. -/
def NMS_IOU_THRESHOLD : ℚ := 1 / 2

/-- Python `x or d` for an optional float argument `x`: `None` and `0.0`
are falsy and give `d`, every other value passes through. -/
def pyOrQ (x : Option ℚ) (d : ℚ) : ℚ :=
  match x with
  | none => d
  | some v => if v = 0 then d else v

/-- Python `x or d` for an optional int argument `x`: `None` and `0`
are falsy and give `d`. -/
def pyOrZ (x : Option ℤ) (d : ℤ) : ℤ :=
  match x with
  | none => d
  | some v => if v = 0 then d else v

/-- The three matching parameters an `InstanceMatcher` stores. -/
structure MatcherConfig where
  similarity_threshold : ℚ
  top_k : ℤ
  nms_iou_threshold : ℚ
deriving DecidableEq, Repr

/-- `InstanceMatcher.__init__`: each argument defaults to `None` and is
resolved with `arg or config_default`. -/
def InstanceMatcher.init (similarity_threshold : Option ℚ) (top_k : Option ℤ)
    (nms_iou_threshold : Option ℚ) : MatcherConfig :=
  ⟨pyOrQ similarity_threshold SIMILARITY_THRESHOLD,
   pyOrZ top_k TOP_K_MATCHES,
   pyOrQ nms_iou_threshold NMS_IOU_THRESHOLD⟩

/-! ### Foreground feature averaging (`dinov2_embedder.py`, lines 110-143)

The DINOv2 forward pass and the bilinear `F.interpolate` resampling are
external model/library calls; the embedding takes their outputs as inputs:
a patch grid (`patches_spatial[0]`, a `grid_h × grid_w` array of feature
vectors over ℝ) and the resampled fractional mask coverage (`mask_resized`,
a `grid_h × grid_w` array of rationals). -/

/-- Sum of squares of the entries of a vector. -/
def sqNormSum (v : List ℝ) : ℝ :=
  (v.map fun x => x ^ 2).sum

/-- Euclidean norm of a vector. -/
noncomputable def vecNorm (v : List ℝ) : ℝ :=
  Real.sqrt (sqNormSum v)

/-- The `eps` of `torch.nn.functional.normalize`, `1e-12`. -/
noncomputable def ffaEps : ℝ := 1 / 10 ^ 12

/-- `F.normalize(v, p=2, dim=0)`: divide by `max(‖v‖₂, eps)`.  A vector of
norm below `eps` is scaled by `1/eps`, not to unit length; in particular the
zero vector is returned unchanged. -/
noncomputable def l2normalize (v : List ℝ) : List ℝ :=
  v.map fun x => x / max (vecNorm v) ffaEps

/-- Elementwise sum of a non-empty family of equal-length vectors. -/
noncomputable def sumVecs : List (List ℝ) → List ℝ
  | [] => []
  | [v] => v
  | v :: w :: rest => List.zipWith (· + ·) v (sumVecs (w :: rest))

/-- `torch.mean(dim=0)` over a stack of vectors: elementwise sum divided by
the number of vectors. -/
noncomputable def vecMean (vs : List (List ℝ)) : List ℝ :=
  (sumVecs vs).map fun x => x / (vs.length : ℝ)

/-- `mask_resized > 0.5`: binarize the fractional coverage grid. -/
def binarizeCoverage (cov : List (List ℚ)) : List (List Bool) :=
  cov.map fun row => row.map fun x => decide (1 / 2 < x)

/-- `patch_mask.sum()`: number of selected patches. -/
def countTrue (pm : List (List Bool)) : ℕ :=
  (pm.map fun r => r.countP id).sum

/-- `torch.ones(grid_h, grid_w, dtype=bool)`: the all-true selection over
the patch grid's shape. -/
def allTrueGrid (g : List (List (List ℝ))) : List (List Bool) :=
  g.map fun row => row.map fun _ => true

/-- Boolean-mask indexing `patches_spatial[0][patch_mask]`: the selected
patch vectors in row-major order. -/
def selectPatches (g : List (List (List ℝ))) (pm : List (List Bool)) : List (List ℝ) :=
  ((g.zip pm).map fun rp => ((rp.1.zip rp.2).filter fun cp => cp.2).map fun cp => cp.1).flatten

/-- The foreground-patch selection with the documented fallback: if no patch
has coverage above `0.5`, every patch of the grid is used (and the code
prints a warning). -/
def patchSelection (g : List (List (List ℝ))) (cov : List (List ℚ)) : List (List Bool) :=
  let pm := binarizeCoverage cov
  if countTrue pm = 0 then allTrueGrid g else pm

/-- `fg_patches.mean(dim=0)`: the average of the selected patch vectors. -/
noncomputable def pooledAverage (g : List (List (List ℝ))) (cov : List (List ℚ)) : List ℝ :=
  vecMean (selectPatches g (patchSelection g cov))

/-- `compute_ffa_embedding` after the preprocessing and resampling calls:
select, average, `F.normalize`. -/
noncomputable def compute_ffa_embedding (g : List (List (List ℝ)))
    (cov : List (List ℚ)) : List ℝ :=
  l2normalize (pooledAverage g cov)

/-! ### Batched embeddings and exceptions (`dinov2_embedder.py`, lines
145-193) -/

/-- A NumPy boolean mask as handed to the embedder: either a 2-D array or
an array of some other dimensionality. -/
inductive PyMask where
  | mask2d (rows : List (List Bool))
  | badShape (ndim : ℕ)
deriving DecidableEq, Repr

/-- `mask_to_bbox` on a stored proposal mask (only ever reached for 2-D
masks, since a non-2-D mask already fails the embedding step). -/
def pyMaskBBox : PyMask → NatBox
  | PyMask.mask2d m => mask_to_bbox m
  | PyMask.badShape _ => ⟨0, 0, 0, 0⟩

/-- The exception a malformed mask raises inside the per-mask loop:
`F.interpolate` rejects an input whose spatial dimensionality is not 2. -/
inductive EmbedError where
  | spatialDimMismatch (ndim : ℕ)
deriving DecidableEq, Repr

/-- The `torch.from_numpy(...).unsqueeze(0).unsqueeze(0)` / `F.interpolate`
step: a 2-D mask is resampled to the patch grid by the external bilinear
resampler `resample`; any other shape raises.  There is no `try/except`
around it in the source. -/
def interpolateToGrid (resample : List (List Bool) → List (List ℚ)) :
    PyMask → Except EmbedError (List (List ℚ))
  | PyMask.mask2d m => Except.ok (resample m)
  | PyMask.badShape n => Except.error (EmbedError.spatialDimMismatch n)

/-- One iteration of the mask loop of `compute_batch_ffa_embeddings`:
resample the mask, then select/average/normalize against the shared grid. -/
noncomputable def poolOneMask (g : List (List (List ℝ)))
    (resample : List (List Bool) → List (List ℚ)) (m : PyMask) :
    Except EmbedError (List ℝ) :=
  (interpolateToGrid resample m).map (compute_ffa_embedding g)

/-- `compute_batch_ffa_embeddings`: one forward pass for the grid, then the
plain `for mask in masks` loop; an exception raised for any one mask aborts
the whole batch (there is no per-mask handler). -/
noncomputable def compute_batch_ffa_embeddings (g : List (List (List ℝ)))
    (resample : List (List Bool) → List (List ℚ)) (masks : List PyMask) :
    Except EmbedError (List (List ℝ)) :=
  masks.mapM (poolOneMask g resample)

/-- `batch_cosine_similarity(reference, candidates) = candidates @ reference`:
one dot product per candidate row. -/
noncomputable def batch_cosine_similarity (reference : List ℝ)
    (candidates : List (List ℝ)) : List ℝ :=
  candidates.map fun e => (List.zipWith (· * ·) e reference).sum

/-! ### The matcher pipeline (`matcher.py`, lines 67-157)

The pipeline is generic in the numeric type `σ` of similarities
(instantiated with ℚ where the claims evaluate it on concrete data and with
ℝ where the similarities come from the pooled real descriptors) and in the
payload type `α` of the stored embedding vector. -/

/-- One SAM2 proposal as consumed by `match_in_image`: a segmentation mask,
`predicted_iou` and `area`. -/
structure Proposal (σ : Type) where
  segmentation : PyMask
  predicted_iou : σ
  area : ℕ
deriving DecidableEq, Repr

/-- A `MatchResult` dataclass instance: mask, bbox, similarity,
`predicted_iou`, area and the FFA embedding. -/
structure MatchCand (σ : Type) (α : Type) where
  mask : PyMask
  bbox : Box
  similarity : σ
  predicted_iou : σ
  area : ℕ
  embedding : α
deriving DecidableEq, Repr

/-- Steps 3-4 of `match_in_image`: zip similarities with proposals, keep
those with `sim >= similarity_threshold`, and build `MatchResult` records
(the bbox is `mask_to_bbox(mask)`; `proposal_embeddings[i]` is the zipped
embedding row). -/
def buildCandidates {σ α : Type} [LinearOrder σ] (threshold : σ)
    (proposals : List (Proposal σ)) (sims : List σ) (embs : List α) :
    List (MatchCand σ α) :=
  ((sims.zip proposals).zip embs).filterMap fun t =>
    if threshold ≤ t.1.1 then
      some ⟨t.1.2.segmentation, (pyMaskBBox t.1.2.segmentation).toBox,
            t.1.1, t.1.2.predicted_iou, t.1.2.area, t.2⟩
    else none

/-- The sort key of step 5: `sort(key=lambda x: x.similarity, reverse=True)`.
`simDescOrder a b` holds when `a` may precede `b` in the descending order. -/
def simDescOrder {σ α : Type} [LinearOrder σ] (a b : MatchCand σ α) : Prop :=
  b.similarity ≤ a.similarity

instance {σ α : Type} [LinearOrder σ] : DecidableRel (@simDescOrder σ α _) :=
  fun a b => inferInstanceAs (Decidable (b.similarity ≤ a.similarity))

instance {σ α : Type} [LinearOrder σ] : IsTotal (MatchCand σ α) simDescOrder :=
  ⟨fun a b => le_total b.similarity a.similarity⟩

instance {σ α : Type} [LinearOrder σ] : IsTrans (MatchCand σ α) simDescOrder :=
  ⟨fun _ _ _ h1 h2 => le_trans h2 h1⟩

/-- The recursion of `_nms` on similarity-sorted candidates: keep the head,
suppress every later candidate whose box IoU with it exceeds the threshold
(survivors have `iou <= threshold`), recurse on the survivors.  The fuel is
the list length, which bounds the recursion depth. -/
def nmsGo {σ α : Type} (thr : ℚ) : ℕ → List (MatchCand σ α) → List (MatchCand σ α)
  | _, [] => []
  | 0, _ :: _ => []
  | fuel + 1, c :: rest =>
      c :: nmsGo thr fuel (rest.filter fun d => decide (bbox_iou c.bbox d.bbox ≤ thr))

/-- `InstanceMatcher._nms`. -/
def nms {σ α : Type} (thr : ℚ) (candidates : List (MatchCand σ α)) :
    List (MatchCand σ α) :=
  nmsGo thr candidates.length candidates

/-- `match_in_image` steps 4-7, after the external proposal and embedding
calls: threshold filter, stable descending sort by similarity, `_nms`, and
truncation to the top `top_k` (`results.matches`).  Python's `list.sort` is
a stable sort, which insertion sort with the reflexive descending order
reproduces exactly. -/
def match_in_image {σ α : Type} [LinearOrder σ] (similarity_threshold : σ)
    (nms_iou_threshold : ℚ) (top_k : ℕ) (proposals : List (Proposal σ))
    (sims : List σ) (embs : List α) : List (MatchCand σ α) :=
  let candidates := buildCandidates similarity_threshold proposals sims embs
  let sorted := List.insertionSort simDescOrder candidates
  (nms nms_iou_threshold sorted).take top_k

/-! ### Cross-image aggregation (`matcher.py`, lines 159-184) -/

/-- One target image as the matcher sees it: the patch grid produced by the
one DINOv2 forward pass and the SAM2 proposals. -/
structure TargetImage where
  grid : List (List (List ℝ))
  proposals : List (Proposal ℝ)

/-- The body of `match_in_image` including the batched embedding call, which
can raise for a malformed proposal mask; the exception escapes because the
loop has no handler. -/
noncomputable def matchInImageExc (similarity_threshold : ℝ) (nms_iou_threshold : ℚ)
    (top_k : ℕ) (resample : List (List Bool) → List (List ℚ))
    (reference : List ℝ) (img : TargetImage) :
    Except EmbedError (List (MatchCand ℝ (List ℝ))) := do
  let embs ← compute_batch_ffa_embeddings img.grid resample
    (img.proposals.map fun p => p.segmentation)
  let sims := batch_cosine_similarity reference embs
  Except.ok (match_in_image similarity_threshold nms_iou_threshold top_k
    img.proposals sims embs)

/-- `match_across_images`: the plain `for` loop over target images, with no
`try/except`; an exception from one image's processing aborts the run. -/
noncomputable def match_across_images (similarity_threshold : ℝ)
    (nms_iou_threshold : ℚ) (top_k : ℕ)
    (resample : List (List Bool) → List (List ℚ)) (reference : List ℝ)
    (target_images : List TargetImage) :
    Except EmbedError (List (List (MatchCand ℝ (List ℝ)))) :=
  target_images.mapM
    (matchInImageExc similarity_threshold nms_iou_threshold top_k resample reference)

/-! ### Concrete instances used to evaluate the pipeline -/

/-- Mask of the first C1 proposal: one row of nine true pixels,
`mask_to_bbox` gives `[0, 0, 9, 1]` (area 9). -/
def m1C1 : List (List Bool) := [List.replicate 9 true]

/-- Mask of the second C1 proposal: the same row shifted right by one pixel,
`mask_to_bbox` gives `[1, 0, 10, 1]`; its box IoU with the first is
`8 / 10 = 0.8`. -/
def m2C1 : List (List Bool) := [false :: List.replicate 9 true]

/-- Mask of the third C1 proposal, a single pixel. -/
def m3C1 : List (List Bool) := [[true]]

/-- The three proposals of the C1 end-to-end scenario. -/
def propsC1 : List (Proposal ℚ) :=
  [⟨PyMask.mask2d m1C1, 95 / 100, 9⟩, ⟨PyMask.mask2d m2C1, 9 / 10, 9⟩,
   ⟨PyMask.mask2d m3C1, 88 / 100, 1⟩]

/-- A high-similarity candidate whose box overlaps both of the two
identical-box candidates below with IoU `9 / 10`. -/
def candA : MatchCand ℚ (List ℚ) :=
  ⟨PyMask.mask2d [], ⟨0, 0, 10, 10⟩, 9 / 10, 1, 100, [1]⟩

/-- First of two candidates sharing the box `[0, 0, 10, 9]`. -/
def candB : MatchCand ℚ (List ℚ) :=
  ⟨PyMask.mask2d [], ⟨0, 0, 10, 9⟩, 8 / 10, 1, 90, [2]⟩

/-- Second candidate with the same box `[0, 0, 10, 9]` and lower similarity. -/
def candC : MatchCand ℚ (List ℚ) :=
  ⟨PyMask.mask2d [], ⟨0, 0, 10, 9⟩, 7 / 10, 1, 90, [3]⟩

/-- A target image whose single proposal mask is a 1-D array: the embedding
loop raises on it. -/
noncomputable def imgBadMask : TargetImage :=
  ⟨[[[(1 : ℝ)]]], [⟨PyMask.badShape 1, 0, 5⟩]⟩

/-- A healthy sibling target image with no proposals. -/
noncomputable def imgHealthy : TargetImage :=
  ⟨[[[(1 : ℝ)]]], []⟩

end ClearCart

namespace ClearCart

/-! ## Helper lemmas -/

/-! ### Non-maximum suppression -/

theorem nmsGo_sublist {σ α : Type} (thr : ℚ) :
    ∀ (fuel : ℕ) (l : List (MatchCand σ α)), List.Sublist (nmsGo thr fuel l) l := by
  intro fuel
  induction fuel with
  | zero => intro l; cases l <;> simp [nmsGo]
  | succ n ih =>
      intro l
      cases l with
      | nil => simp [nmsGo]
      | cons c rest =>
          exact List.Sublist.cons₂ c ((ih _).trans (List.filter_sublist rest))

theorem nmsGo_pairwise {σ α : Type} (thr : ℚ) :
    ∀ (fuel : ℕ) (l : List (MatchCand σ α)),
      (nmsGo thr fuel l).Pairwise fun a b => bbox_iou a.bbox b.bbox ≤ thr := by
  intro fuel
  induction fuel with
  | zero => intro l; cases l <;> simp [nmsGo]
  | succ n ih =>
      intro l
      cases l with
      | nil => simp [nmsGo]
      | cons c rest =>
          refine List.Pairwise.cons (fun b hb => ?_) (ih _)
          have hbmem := (nmsGo_sublist thr n _).subset hb
          exact of_decide_eq_true (List.mem_filter.mp hbmem).2

theorem nms_of_pairwise_lt {σ α : Type} (thr : ℚ) (l : List (MatchCand σ α))
    (h : l.Pairwise fun a b => bbox_iou a.bbox b.bbox < thr) : nms thr l = l := by
  induction l with
  | nil => rfl
  | cons c rest ih =>
      have hhead := (List.pairwise_cons.mp h).1
      have hfilter : (rest.filter fun d => decide (bbox_iou c.bbox d.bbox ≤ thr)) = rest :=
        List.filter_eq_self.mpr fun d hd => decide_eq_true (hhead d hd).le
      have hstep : nms thr (c :: rest) = c :: nmsGo thr rest.length rest := by
        simp [nms, nmsGo, hfilter]
      rw [hstep]
      rw [show nmsGo thr rest.length rest = nms thr rest from rfl,
        ih (List.pairwise_cons.mp h).2]

theorem countP_le_one_of_pairwise {β : Type} (R : β → β → Prop) (p : β → Bool)
    (l : List β) (hl : l.Pairwise R) (h : ∀ a b, p a = true → p b = true → ¬ R a b) :
    l.countP p ≤ 1 := by
  induction l with
  | nil => simp
  | cons x l ih =>
      rw [List.countP_cons]
      rcases List.pairwise_cons.mp hl with ⟨hx, hl2⟩
      cases hp : p x with
      | false => simpa using ih hl2
      | true =>
          have hzero : l.countP p = 0 :=
            List.countP_eq_zero.mpr fun a ha hpa => h x a hp hpa (hx a ha)
          simp [hzero]

theorem bbox_iou_self_pos (b : Box) (hx : b.x1 < b.x2) (hy : b.y1 < b.y2) :
    bbox_iou b b = 1 := by
  have hinter : interArea b b = boxArea b := by
    simp [interArea, boxArea, max_eq_right (sub_nonneg.mpr hx.le),
      max_eq_right (sub_nonneg.mpr hy.le)]
  have hunion : unionArea b b = boxArea b := by
    simp [unionArea, hinter]
  have hpos : 0 < boxArea b := mul_pos (sub_pos.mpr hx) (sub_pos.mpr hy)
  simp [bbox_iou, hunion, hinter, hpos, div_self hpos.ne']

/-! ### Euclidean norms of pooled descriptors -/

theorem sqNormSum_nonneg (v : List ℝ) : 0 ≤ sqNormSum v := by
  refine List.sum_nonneg ?_
  intro x hx
  rcases List.mem_map.mp hx with ⟨y, _, rfl⟩
  exact sq_nonneg y

theorem sqNormSum_map_div (v : List ℝ) (c : ℝ) :
    sqNormSum (v.map fun x => x / c) = sqNormSum v / c ^ 2 := by
  induction v with
  | nil => simp [sqNormSum]
  | cons a v ih =>
      simp only [List.map_cons, sqNormSum, List.sum_cons] at ih ⊢
      rw [ih, div_pow, add_div]

theorem ffaEps_pos : (0 : ℝ) < ffaEps := by
  norm_num [ffaEps]

theorem vecNorm_l2normalize (v : List ℝ) (h : ffaEps ≤ vecNorm v) :
    vecNorm (l2normalize v) = 1 := by
  have hpos : 0 < vecNorm v := lt_of_lt_of_le ffaEps_pos h
  have hmax : max (vecNorm v) ffaEps = vecNorm v := max_eq_left h
  rw [l2normalize, hmax, vecNorm, sqNormSum_map_div, Real.sqrt_div (sqNormSum_nonneg v),
    show Real.sqrt (sqNormSum v) = vecNorm v from rfl, Real.sqrt_sq hpos.le,
    div_self hpos.ne']

/-! ### Index arithmetic for `mask_to_bbox` -/

theorem getD_true_lt_length {l : List Bool} {k : ℕ} (h : l.getD k false = true) :
    k < l.length := by
  by_contra hk
  rw [List.getD_eq_default l false (le_of_not_lt hk)] at h
  exact Bool.false_ne_true h

theorem firstTrue_le {l : List Bool} {k : ℕ} (h : l.getD k false = true) :
    firstTrue l ≤ k := by
  induction l generalizing k with
  | nil => simp at h
  | cons b l ih =>
      cases k with
      | zero =>
          simp only [List.getD_cons_zero] at h
          simp [firstTrue, h]
      | succ k =>
          simp only [List.getD_cons_succ] at h
          by_cases hb : b = true
          · simp [firstTrue, hb]
          · simp only [firstTrue, Bool.of_not_eq_true hb, if_false]
            exact Nat.succ_le_succ (ih h)

theorem firstTrue_getD {l : List Bool} (h : l.any id = true) :
    l.getD (firstTrue l) false = true := by
  induction l with
  | nil => simp at h
  | cons b l ih =>
      by_cases hb : b = true
      · simp [firstTrue, hb]
      · have hb2 : b = false := Bool.of_not_eq_true hb
        subst hb2
        simp only [List.any_cons, id, Bool.false_or] at h
        simp only [firstTrue, if_false, List.getD_cons_succ]
        exact ih h

theorem getD_reverse {l : List Bool} {k : ℕ} (h : k < l.length) :
    l.reverse.getD (l.length - 1 - k) false = l.getD k false := by
  have h1 : l.length - 1 - k < l.reverse.length := by simp; omega
  have h2 : k < l.length := h
  rw [List.getD_eq_getElem l.reverse false h1, List.getD_eq_getElem l false h2,
    List.getElem_reverse h1]
  congr 1
  omega

theorem lastTrue_ge {l : List Bool} {k : ℕ} (h : l.getD k false = true) :
    k ≤ lastTrue l := by
  have hk : k < l.length := getD_true_lt_length h
  have hrev : l.reverse.getD (l.length - 1 - k) false = true := by
    rw [getD_reverse hk]; exact h
  have := firstTrue_le hrev
  unfold lastTrue
  omega

theorem lastTrue_getD {l : List Bool} (h : l.any id = true) :
    l.getD (lastTrue l) false = true := by
  have hany : l.reverse.any id = true := by
    rw [List.any_reverse]; exact h
  have hfirst := firstTrue_getD hany
  have hlt : firstTrue l.reverse < l.length := by
    have := getD_true_lt_length hfirst
    simpa using this
  have heq : l.length - 1 - (l.length - 1 - firstTrue l.reverse) = firstTrue l.reverse := by
    omega
  have hswap := @getD_reverse l (l.length - 1 - firstTrue l.reverse) (by omega)
  rw [heq] at hswap
  rw [show lastTrue l = l.length - 1 - firstTrue l.reverse from rfl, ← hswap]
  exact hfirst

theorem map_getD_any (m : List (List Bool)) (i : ℕ) :
    (m.map fun r => r.any id).getD i false = (m.getD i []).any id := by
  induction m generalizing i with
  | nil => simp
  | cons r m ih =>
      cases i with
      | zero => simp
      | succ i => simpa using ih i

theorem range_map_getD (W : ℕ) (g : ℕ → Bool) (j : ℕ) :
    ((List.range W).map g).getD j false = if j < W then g j else false := by
  by_cases hj : j < W
  · have hlen : j < ((List.range W).map g).length := by simpa using hj
    rw [List.getD_eq_getElem _ false hlen, if_pos hj]
    rw [List.getElem_map]
    congr 1
    exact List.getElem_range j (by simpa using hj)
  · rw [if_neg hj, List.getD_eq_default]
    simpa using le_of_not_lt hj

theorem any_iff_exists_getD (l : List Bool) :
    l.any id = true ↔ ∃ k, l.getD k false = true := by
  constructor
  · intro h
    rcases List.any_eq_true.mp h with ⟨x, hx, hpx⟩
    rcases List.mem_iff_getElem.mp hx with ⟨k, hk, hk2⟩
    exact ⟨k, by rw [List.getD_eq_getElem l false hk, hk2]; exact hpx⟩
  · rintro ⟨k, hk⟩
    have hlt := getD_true_lt_length hk
    have hg : l[k] = true := by rw [← List.getD_eq_getElem l false hlt]; exact hk
    exact List.any_eq_true.mpr ⟨true, hg ▸ List.getElem_mem hlt, rfl⟩

theorem rowAny_iff (m : List (List Bool)) (j : ℕ) :
    (m.any fun r => r.getD j false) = true ↔ ∃ i, maskPixel m i j = true := by
  constructor
  · intro h
    rcases List.any_eq_true.mp h with ⟨r, hr, hrj⟩
    rcases List.mem_iff_getElem.mp hr with ⟨i, hi, hi2⟩
    refine ⟨i, ?_⟩
    rw [maskPixel, List.getD_eq_getElem m [] hi, hi2]
    exact hrj
  · rintro ⟨i, hi⟩
    rw [maskPixel] at hi
    have hilen : i < m.length := by
      by_contra hbad
      rw [List.getD_eq_default m [] (le_of_not_lt hbad)] at hi
      simp at hi
    refine List.any_eq_true.mpr ⟨m.getD i [], ?_, hi⟩
    rw [List.getD_eq_getElem m [] hilen]
    exact List.getElem_mem hilen

theorem mask_to_bbox_of_any (m : List (List Bool))
    (h : (m.map fun r => r.any id).any id = true) :
    mask_to_bbox m =
      ⟨firstTrue ((List.range (maskWidth m)).map fun j => m.any fun r => r.getD j false),
       firstTrue (m.map fun r => r.any id),
       lastTrue ((List.range (maskWidth m)).map fun j => m.any fun r => r.getD j false) + 1,
       lastTrue (m.map fun r => r.any id) + 1⟩ := by
  simp only [mask_to_bbox, h, if_true]

theorem mask_to_bbox_of_not_any (m : List (List Bool))
    (h : (m.map fun r => r.any id).any id = false) :
    mask_to_bbox m = ⟨0, 0, 0, 0⟩ := by
  simp only [mask_to_bbox, h, Bool.false_eq_true, if_false]

end ClearCart

namespace ClearCart

/-! ## Remaining helper lemmas -/

theorem buildCandidates_anti {σ α : Type} [LinearOrder σ] {t1 t2 : σ} (h : t1 ≤ t2)
    (proposals : List (Proposal σ)) (sims : List σ) (embs : List α) :
    List.Sublist (buildCandidates t2 proposals sims embs)
      (buildCandidates t1 proposals sims embs) := by
  unfold buildCandidates
  generalize (sims.zip proposals).zip embs = l
  induction l with
  | nil => simp
  | cons a l ih =>
      simp only [List.filterMap_cons]
      by_cases h2 : t2 ≤ a.1.1
      · rw [if_pos h2, if_pos (le_trans h h2)]
        exact List.Sublist.cons₂ _ ih
      · rw [if_neg h2]
        by_cases h1 : t1 ≤ a.1.1
        · rw [if_pos h1]
          exact ih.cons _
        · rw [if_neg h1]
          exact ih

/-! ## The claims -/

/-- C1: with similarity threshold `0.65`, NMS IoU threshold `0.5` and
`top_k = 3`, three proposals of similarities `0.9`, `0.72`, `0.3` whose
first two bounding boxes have pairwise IoU `0.8` produce exactly one match,
of similarity `0.9` (the second proposal is suppressed as a duplicate, the
third is below the threshold). -/
theorem end_to_end_single_match :
    bbox_iou (mask_to_bbox m1C1).toBox (mask_to_bbox m2C1).toBox = 4 / 5 ∧
    (match_in_image (13 / 20 : ℚ) (1 / 2) 3 propsC1 [9 / 10, 18 / 25, 3 / 10]
      ([[1], [2], [3]] : List (List ℚ))).map (fun c => c.similarity) = [9 / 10] := by
  have hb1 : pyMaskBBox (PyMask.mask2d m1C1) = ⟨0, 0, 9, 1⟩ := by decide
  have hb2 : pyMaskBBox (PyMask.mask2d m2C1) = ⟨1, 0, 10, 1⟩ := by decide
  have hb3 : pyMaskBBox (PyMask.mask2d m3C1) = ⟨0, 0, 1, 1⟩ := by decide
  have hi12 : bbox_iou (NatBox.toBox ⟨0, 0, 9, 1⟩) (NatBox.toBox ⟨1, 0, 10, 1⟩) = 4 / 5 := by
    norm_num [bbox_iou, interArea, unionArea, boxArea, NatBox.toBox]
  constructor
  · rw [show mask_to_bbox m1C1 = ⟨0, 0, 9, 1⟩ from by decide,
      show mask_to_bbox m2C1 = ⟨1, 0, 10, 1⟩ from by decide]
    exact hi12
  · simp only [match_in_image, buildCandidates, propsC1, List.zip_cons_cons,
      List.zip_nil_right, List.filterMap_cons, List.filterMap_nil, hb1, hb2, hb3]
    norm_num only []
    simp only [List.insertionSort, List.orderedInsert, simDescOrder]
    norm_num only []
    simp only [nms, nmsGo, List.filter_cons, List.filter_nil, hi12, decide_eq_true_eq]
    norm_num [NatBox.toBox, bbox_iou, interArea, unionArea, boxArea, nmsGo]

/-- C2 (amended): the pooled descriptor has Euclidean norm exactly 1
whenever the averaged (selected or fallback) patch vector has norm at least
the normalisation `eps` of `1e-12`; and an empty foreground selection falls
back to pooling over every patch of the grid.  (As stated the claim fails:
a zero averaged vector is returned as the zero vector, of norm 0, by the
`eps`-clamped normalisation — see the counterexample.) -/
theorem ffa_unit_norm (g : List (List (List ℝ))) (cov : List (List ℚ)) :
    (ffaEps ≤ vecNorm (pooledAverage g cov) →
      vecNorm (compute_ffa_embedding g cov) = 1) ∧
    (countTrue (binarizeCoverage cov) = 0 → patchSelection g cov = allTrueGrid g) := by
  constructor
  · intro h
    rw [compute_ffa_embedding]
    exact vecNorm_l2normalize _ h
  · intro h
    simp [patchSelection, h]

/-- Witness for C2: a `1 × 1` grid holding the vector `(3, 4)` with full
coverage pools to norm `5 ≥ eps` and the output has norm 1; a coverage grid
of all zeros selects no patch and falls back to the whole grid. -/
theorem ffa_unit_norm_witness :
    (ffaEps ≤ vecNorm (pooledAverage [[[(3 : ℝ), 4]]] [[1]]) ∧
      vecNorm (compute_ffa_embedding [[[(3 : ℝ), 4]]] [[1]]) = 1) ∧
    (countTrue (binarizeCoverage [[(0 : ℚ)]]) = 0 ∧
      patchSelection [[[(3 : ℝ), 4]]] [[(0 : ℚ)]] = allTrueGrid [[[(3 : ℝ), 4]]]) := by
  have hb : binarizeCoverage [[(1 : ℚ)]] = [[true]] := by norm_num [binarizeCoverage]
  have havg : pooledAverage [[[(3 : ℝ), 4]]] [[1]] = [3, 4] := by
    simp [pooledAverage, patchSelection, hb, countTrue, selectPatches, vecMean, sumVecs]
  have h25 : vecNorm [(3 : ℝ), 4] = 5 := by
    rw [vecNorm, sqNormSum, show ((([(3 : ℝ), 4]).map fun x => x ^ 2).sum : ℝ) = 5 ^ 2 by
      norm_num, Real.sqrt_sq (by norm_num)]
  have h1 : ffaEps ≤ vecNorm (pooledAverage [[[(3 : ℝ), 4]]] [[1]]) := by
    rw [havg, h25]
    norm_num [ffaEps]
  have h0 : countTrue (binarizeCoverage [[(0 : ℚ)]]) = 0 := by
    norm_num [binarizeCoverage, countTrue]
  exact ⟨⟨h1, (ffa_unit_norm _ _).1 h1⟩, ⟨h0, (ffa_unit_norm _ _).2 h0⟩⟩

/-- Counterexample to C2 as stated: on a `1 × 1` patch grid holding the zero
vector, with the patch fully covered, the pooled "descriptor" has norm 0,
not 1 — the output is not always unit-norm. -/
theorem ffa_zero_grid_not_unit :
    vecNorm (compute_ffa_embedding [[[(0 : ℝ)]]] [[1]]) ≠ 1 := by
  have hb : binarizeCoverage [[(1 : ℚ)]] = [[true]] := by norm_num [binarizeCoverage]
  have havg : pooledAverage [[[(0 : ℝ)]]] [[1]] = [0] := by
    simp [pooledAverage, patchSelection, hb, countTrue, selectPatches, vecMean, sumVecs]
  have hnorm0 : vecNorm [(0 : ℝ)] = 0 := by simp [vecNorm, sqNormSum]
  have hout : compute_ffa_embedding [[[(0 : ℝ)]]] [[1]] = [0] := by
    simp [compute_ffa_embedding, havg, l2normalize, hnorm0]
  rw [hout, hnorm0]
  norm_num

/-- C3 (code bug evidence): a selection of two opposite patch vectors
averages to the zero vector; `compute_ffa_embedding` returns the zero
vector — of norm 0 — and surfaces no error of any kind (the function is
total), while the spec demands a reported `ZeroNormError`. -/
theorem ffa_zero_norm_silent :
    compute_ffa_embedding [[[(1 : ℝ)], [(-1 : ℝ)]]] [[1, 1]] = [0] ∧
    vecNorm (compute_ffa_embedding [[[(1 : ℝ)], [(-1 : ℝ)]]] [[1, 1]]) = 0 := by
  have hb : binarizeCoverage [[1, 1]] = [[true, true]] := by norm_num [binarizeCoverage]
  have havg : pooledAverage [[[(1 : ℝ)], [(-1 : ℝ)]]] [[1, 1]] = [0] := by
    simp [pooledAverage, patchSelection, hb, countTrue, selectPatches, vecMean, sumVecs]
  have hnorm0 : vecNorm [(0 : ℝ)] = 0 := by simp [vecNorm, sqNormSum]
  have hout : compute_ffa_embedding [[[(1 : ℝ)], [(-1 : ℝ)]]] [[1, 1]] = [0] := by
    simp [compute_ffa_embedding, havg, l2normalize, hnorm0]
  exact ⟨hout, by rw [hout, hnorm0]⟩

/-- C4 (code bug evidence): one malformed (1-D) mask aborts the whole
embedding batch, and one malformed proposal in the first of two target
images aborts `match_across_images` for every image — no per-candidate or
per-image isolation exists, for any thresholds, resampler or reference. -/
theorem batch_and_run_abort_on_malformed_mask :
    (∀ (g : List (List (List ℝ))) (resample : List (List Bool) → List (List ℚ)),
      compute_batch_ffa_embeddings g resample
          [PyMask.mask2d [[true]], PyMask.badShape 1] =
        Except.error (EmbedError.spatialDimMismatch 1)) ∧
    (∀ (st : ℝ) (nt : ℚ) (k : ℕ) (resample : List (List Bool) → List (List ℚ))
        (reference : List ℝ),
      match_across_images st nt k resample reference [imgBadMask, imgHealthy] =
        Except.error (EmbedError.spatialDimMismatch 1)) :=
  ⟨fun _ _ => rfl, fun _ _ _ _ _ => rfl⟩

/-- C5: every result list of `match_in_image` is ordered by similarity
descending, has at most `top_k` entries, and no two of its entries have
pairwise box IoU above the NMS suppression threshold. -/
theorem match_in_image_invariants (similarity_threshold nms_iou_threshold : ℚ)
    (top_k : ℕ) (proposals : List (Proposal ℚ)) (sims : List ℚ)
    (embs : List (List ℚ)) :
    (match_in_image similarity_threshold nms_iou_threshold top_k proposals sims
        embs).Pairwise
      (fun a b => b.similarity ≤ a.similarity ∧
        bbox_iou a.bbox b.bbox ≤ nms_iou_threshold) ∧
    (match_in_image similarity_threshold nms_iou_threshold top_k proposals sims
        embs).length ≤ top_k := by
  have hsorted := List.sorted_insertionSort simDescOrder
    (buildCandidates similarity_threshold proposals sims embs)
  have h1 := hsorted.sublist (nmsGo_sublist nms_iou_threshold
    (List.insertionSort simDescOrder
      (buildCandidates similarity_threshold proposals sims embs)).length
    (List.insertionSort simDescOrder
      (buildCandidates similarity_threshold proposals sims embs)))
  have h2 := nmsGo_pairwise nms_iou_threshold
    (List.insertionSort simDescOrder
      (buildCandidates similarity_threshold proposals sims embs)).length
    (List.insertionSort simDescOrder
      (buildCandidates similarity_threshold proposals sims embs))
  constructor
  · simp only [match_in_image]
    rw [nms]
    exact ((h1.and h2).sublist (List.take_sublist _ _)).imp fun hab =>
      ⟨hab.1, hab.2⟩
  · simp only [match_in_image]
    rw [List.length_take]
    exact min_le_left _ _

/-- C6 (amended): on similarity-sorted input, (a) if all pairwise box IoUs
are below the threshold the suppressor returns its input unchanged; (b) for
a positive-area box and a threshold below 1, at most one candidate carrying
that exact box survives — both of two identical-box candidates can be
suppressed by an earlier accepted overlapping candidate; and (c) when the
input consists of exactly the two identical-box candidates, precisely the
earlier (higher-similarity) one survives. -/
theorem nms_suppression_spec :
    (∀ (thr : ℚ) (l : List (MatchCand ℚ (List ℚ))),
      (l.Pairwise fun a b => bbox_iou a.bbox b.bbox < thr) → nms thr l = l) ∧
    (∀ (thr : ℚ) (l : List (MatchCand ℚ (List ℚ))) (B : Box), thr < 1 →
      B.x1 < B.x2 → B.y1 < B.y2 →
      (nms thr l).countP (fun d => decide (d.bbox = B)) ≤ 1) ∧
    (∀ (thr : ℚ) (b c : MatchCand ℚ (List ℚ)), thr < 1 → c.bbox = b.bbox →
      b.bbox.x1 < b.bbox.x2 → b.bbox.y1 < b.bbox.y2 → nms thr [b, c] = [b]) := by
  refine ⟨?_, ?_, ?_⟩
  · intro thr l h
    exact nms_of_pairwise_lt thr l (h.imp fun hab => hab)
  · intro thr l B hthr hx hy
    rw [nms]
    have hpw := @nmsGo_pairwise ℚ (List ℚ) thr l.length l
    generalize nmsGo thr l.length l = out at hpw ⊢
    revert hpw
    induction out with
    | nil => intro _; simp
    | cons x rest ih =>
        intro hpw
        rcases List.pairwise_cons.mp hpw with ⟨hx1, hrest⟩
        rw [List.countP_cons]
        by_cases hpx : x.bbox = B
        · have hz : rest.countP (fun d => decide (d.bbox = B)) = 0 := by
            refine List.countP_eq_zero.mpr ?_
            intro a ha hcontra
            have ha2 : a.bbox = B := of_decide_eq_true hcontra
            have hiou := hx1 a ha
            rw [hpx, ha2, bbox_iou_self_pos B hx hy] at hiou
            exact absurd hiou (not_le.mpr hthr)
          simp [hz, hpx]
        · have hfalse : (decide (x.bbox = B)) = false := decide_eq_false hpx
          simp only [hfalse, Bool.false_eq_true, if_false, Nat.add_zero]
          exact ih hrest
  · intro thr b c hthr hcb hx hy
    have h1 : bbox_iou b.bbox c.bbox = 1 := by
      rw [hcb]
      exact bbox_iou_self_pos _ hx hy
    have hd : decide (bbox_iou b.bbox c.bbox ≤ thr) = false := by
      rw [h1]
      exact decide_eq_false (not_le.mpr hthr)
    have hstep : nms thr [b, c] =
        b :: nmsGo thr 1 ([c].filter fun d => decide (bbox_iou b.bbox d.bbox ≤ thr)) :=
      rfl
    rw [hstep, List.filter_cons, hd]
    simp [nmsGo]

/-- Witness for C6: part (a) at two disjoint-box candidates, part (b) and
part (c) at the concrete identical-box pair. -/
theorem nms_suppression_spec_witness :
    nms (1 / 2) [candA,
      ⟨PyMask.mask2d [], ⟨20, 20, 21, 21⟩, 1 / 2, 1, 1, [9]⟩] = [candA,
      ⟨PyMask.mask2d [], ⟨20, 20, 21, 21⟩, 1 / 2, 1, 1, [9]⟩] ∧
    (nms (1 / 2) [candB, candC]).countP
      (fun d => decide (d.bbox = (⟨0, 0, 10, 9⟩ : Box))) ≤ 1 ∧
    nms (1 / 2) [candB, candC] = [candB] := by
  refine ⟨?_, ?_, ?_⟩
  · refine nms_suppression_spec.1 (1 / 2) _ ?_
    refine List.Pairwise.cons ?_ (List.pairwise_singleton _ _)
    intro d hd
    rw [List.mem_singleton] at hd
    subst hd
    have hdisj : bbox_iou candA.bbox
        (⟨PyMask.mask2d [], ⟨20, 20, 21, 21⟩, 1 / 2, 1, 1,
          [9]⟩ : MatchCand ℚ (List ℚ)).bbox = 0 := by
      norm_num [candA, bbox_iou, interArea, unionArea, boxArea]
    rw [hdisj]
    norm_num
  · exact nms_suppression_spec.2.1 (1 / 2) _ _ (by norm_num)
      (by norm_num) (by norm_num)
  · exact nms_suppression_spec.2.2 (1 / 2) candB candC (by norm_num)
      (by norm_num [candB, candC]) (by norm_num [candB]) (by norm_num [candB])

/-- Counterexample to C6 as stated: on the similarity-sorted input
`[candA, candB, candC]` where `candB` and `candC` carry the identical
positive-area box `[0, 0, 10, 9]`, the accepted first candidate suppresses
both of them (IoU `0.9 > 0.5`), so zero — not exactly one — of the two
identical-box candidates survives. -/
theorem nms_zero_identical_survivors :
    candB.bbox = candC.bbox ∧
    [candA, candB, candC].Pairwise simDescOrder ∧
    (nms (1 / 2) [candA, candB, candC]).countP
      (fun d => decide (d.bbox = candB.bbox)) = 0 := by
  have hAB : bbox_iou candA.bbox candB.bbox = 9 / 10 := by
    norm_num [candA, candB, bbox_iou, interArea, unionArea, boxArea]
  have hAC : bbox_iou candA.bbox candC.bbox = 9 / 10 := by
    norm_num [candA, candC, bbox_iou, interArea, unionArea, boxArea]
  have hdB : decide (bbox_iou candA.bbox candB.bbox ≤ 1 / 2) = false := by
    rw [hAB]
    exact decide_eq_false (by norm_num)
  have hdC : decide (bbox_iou candA.bbox candC.bbox ≤ 1 / 2) = false := by
    rw [hAC]
    exact decide_eq_false (by norm_num)
  have hnms : nms (1 / 2) [candA, candB, candC] = [candA] := by
    have hstep : nms (1 / 2) [candA, candB, candC] =
        candA :: nmsGo (1 / 2) 2 ([candB, candC].filter fun d =>
          decide (bbox_iou candA.bbox d.bbox ≤ 1 / 2)) :=
      rfl
    rw [hstep, List.filter_cons, hdB, List.filter_cons, hdC]
    simp [nmsGo]
  refine ⟨by norm_num [candB, candC], ?_, ?_⟩
  · simp [List.pairwise_cons, simDescOrder, candA, candB, candC]
    norm_num
  · rw [hnms]
    have : decide (candA.bbox = candB.bbox) = false := by
      refine decide_eq_false ?_
      norm_num [candA, candB]
    simp [this]

/-- C7: the IoU of two disjoint boxes is exactly 0; the IoU of two
identical boxes of positive extent is exactly 1; and a zero-area union
returns 0 (the guarded branch — the function never divides by zero, and
identical degenerate boxes fall under this zero-union clause). -/
theorem bbox_iou_geometry :
    (∀ b1 b2 : Box, boxDisjoint b1 b2 → bbox_iou b1 b2 = 0) ∧
    (∀ b : Box, b.x1 < b.x2 → b.y1 < b.y2 → bbox_iou b b = 1) ∧
    (∀ b1 b2 : Box, unionArea b1 b2 = 0 → bbox_iou b1 b2 = 0) := by
  refine ⟨?_, fun b hx hy => bbox_iou_self_pos b hx hy, ?_⟩
  · intro b1 b2 hd
    have hinter : interArea b1 b2 = 0 := by
      rcases hd with hx | hy
      · rw [interArea, max_eq_left (sub_nonpos.mpr hx), zero_mul]
      · rw [interArea, max_eq_left (sub_nonpos.mpr hy), mul_zero]
    simp [bbox_iou, hinter]
  · intro b1 b2 hu
    simp [bbox_iou, hu]

/-- Witness for C7: the three clauses evaluated at concrete boxes — two
disjoint unit boxes, one positive box against itself, and the degenerate
all-zero box whose self-union has zero area. -/
theorem bbox_iou_geometry_witness :
    bbox_iou ⟨0, 0, 1, 1⟩ ⟨2, 2, 3, 3⟩ = 0 ∧
    bbox_iou ⟨0, 0, 2, 3⟩ ⟨0, 0, 2, 3⟩ = 1 ∧
    bbox_iou ⟨0, 0, 0, 0⟩ ⟨0, 0, 0, 0⟩ = 0 := by
  have hd : boxDisjoint ⟨0, 0, 1, 1⟩ ⟨2, 2, 3, 3⟩ := Or.inl (by norm_num)
  exact ⟨bbox_iou_geometry.1 _ _ hd,
    bbox_iou_geometry.2.1 _ (by norm_num) (by norm_num),
    bbox_iou_geometry.2.2 _ _ (by norm_num [unionArea, boxArea, interArea])⟩

/-- C8: the similarity filter of `match_in_image` is monotone in its
threshold: for `t1 ≤ t2` the candidates retained at `t2` are a (sub)list of
those retained at `t1` — membership is preserved and the count never
increases when the threshold is raised. -/
theorem similarity_filter_monotone {t1 t2 : ℚ} (h : t1 ≤ t2)
    (proposals : List (Proposal ℚ)) (sims : List ℚ) (embs : List (List ℚ)) :
    List.Sublist (buildCandidates t2 proposals sims embs)
      (buildCandidates t1 proposals sims embs) ∧
    (∀ c ∈ buildCandidates t2 proposals sims embs,
      c ∈ buildCandidates t1 proposals sims embs) ∧
    (buildCandidates t2 proposals sims embs).length ≤
      (buildCandidates t1 proposals sims embs).length := by
  have hs := buildCandidates_anti h proposals sims embs
  exact ⟨hs, fun c hc => hs.subset hc, hs.length_le⟩

/-- Witness for C8: thresholds `0.5 ≤ 0.65` on the concrete C1 proposal
data. -/
theorem similarity_filter_monotone_witness :
    (1 / 2 : ℚ) ≤ 13 / 20 ∧
    (buildCandidates (13 / 20 : ℚ) propsC1 [9 / 10, 18 / 25, 3 / 10]
        ([[1], [2], [3]] : List (List ℚ))).length ≤
      (buildCandidates (1 / 2 : ℚ) propsC1 [9 / 10, 18 / 25, 3 / 10]
        ([[1], [2], [3]] : List (List ℚ))).length :=
  ⟨by norm_num,
   (similarity_filter_monotone (by norm_num) propsC1 [9 / 10, 18 / 25, 3 / 10]
      ([[1], [2], [3]] : List (List ℚ))).2.2⟩

/-- C9: for a rectangular mask with at least one true pixel, `mask_to_bbox`
returns the tight axis-aligned rectangle covering all true pixels (every
true pixel lies inside it and each of its four edges touches one); an
all-false mask returns the degenerate zero-area box `[0, 0, 0, 0]` (the
function is total — it never raises). -/
theorem mask_to_bbox_tight (m : List (List Bool)) (W : ℕ)
    (hrect : ∀ r ∈ m, r.length = W) :
    ((∃ i j, maskPixel m i j = true) →
      (∀ i j, maskPixel m i j = true →
          (mask_to_bbox m).x1 ≤ j ∧ j < (mask_to_bbox m).x2 ∧
          (mask_to_bbox m).y1 ≤ i ∧ i < (mask_to_bbox m).y2) ∧
      (∃ j, maskPixel m ((mask_to_bbox m).y1) j = true) ∧
      (∃ j, maskPixel m ((mask_to_bbox m).y2 - 1) j = true) ∧
      (∃ i, maskPixel m i ((mask_to_bbox m).x1) = true) ∧
      (∃ i, maskPixel m i ((mask_to_bbox m).x2 - 1) = true)) ∧
    ((∀ i j, maskPixel m i j = false) → mask_to_bbox m = ⟨0, 0, 0, 0⟩) := by
  constructor
  · rintro ⟨i0, j0, hij0⟩
    have rowFact : ∀ i j, maskPixel m i j = true →
        (m.map fun r => r.any id).getD i false = true := by
      intro i j hij
      rw [map_getD_any]
      exact (any_iff_exists_getD _).mpr ⟨j, hij⟩
    have hrows : (m.map fun r => r.any id).any id = true :=
      (any_iff_exists_getD _).mpr ⟨i0, rowFact i0 j0 hij0⟩
    have hmne : m ≠ [] := by
      rintro rfl
      simp [maskPixel] at hij0
    have hW : maskWidth m = W := by
      rw [maskWidth]
      apply hrect
      cases m with
      | nil => exact absurd rfl hmne
      | cons r m => exact List.mem_cons_self r m
    have colFact : ∀ i j, maskPixel m i j = true →
        ((List.range (maskWidth m)).map fun j => m.any fun r => r.getD j false).getD j
          false = true := by
      intro i j hij
      have hrowlen : j < (m.getD i []).length := getD_true_lt_length hij
      have hilen : i < m.length := by
        by_contra hbad
        rw [maskPixel, List.getD_eq_default m [] (le_of_not_lt hbad)] at hij
        simp at hij
      have hjW : j < W := by
        have hmem : m.getD i [] ∈ m := by
          rw [List.getD_eq_getElem m [] hilen]
          exact List.getElem_mem hilen
        rw [hrect _ hmem] at hrowlen
        exact hrowlen
      rw [range_map_getD, hW, if_pos hjW]
      exact (rowAny_iff m j).mpr ⟨i, hij⟩
    have hcols :
        ((List.range (maskWidth m)).map fun j => m.any fun r => r.getD j false).any id
          = true :=
      (any_iff_exists_getD _).mpr ⟨j0, colFact i0 j0 hij0⟩
    rw [mask_to_bbox_of_any m hrows]
    refine ⟨?_, ?_, ?_, ?_, ?_⟩
    · intro i j hij
      refine ⟨firstTrue_le (colFact i j hij), ?_, firstTrue_le (rowFact i j hij), ?_⟩
      · exact Nat.lt_succ_of_le (lastTrue_ge (colFact i j hij))
      · exact Nat.lt_succ_of_le (lastTrue_ge (rowFact i j hij))
    · have h2 := firstTrue_getD hrows
      rw [map_getD_any] at h2
      exact (any_iff_exists_getD _).mp h2
    · have h2 := lastTrue_getD hrows
      rw [map_getD_any] at h2
      show ∃ j, maskPixel m (lastTrue (m.map fun r => r.any id) + 1 - 1) j = true
      rw [Nat.add_sub_cancel]
      exact (any_iff_exists_getD _).mp h2
    · have hhit := firstTrue_getD hcols
      rw [range_map_getD] at hhit
      by_cases hlt : firstTrue ((List.range (maskWidth m)).map fun j =>
          m.any fun r => r.getD j false) < maskWidth m
      · rw [if_pos hlt] at hhit
        exact (rowAny_iff m _).mp hhit
      · rw [if_neg hlt] at hhit
        exact absurd hhit Bool.false_ne_true
    · have hhit := lastTrue_getD hcols
      rw [range_map_getD] at hhit
      by_cases hlt : lastTrue ((List.range (maskWidth m)).map fun j =>
          m.any fun r => r.getD j false) < maskWidth m
      · rw [if_pos hlt] at hhit
        show ∃ i, maskPixel m i (lastTrue ((List.range (maskWidth m)).map fun j =>
          m.any fun r => r.getD j false) + 1 - 1) = true
        rw [Nat.add_sub_cancel]
        exact (rowAny_iff m _).mp hhit
      · rw [if_neg hlt] at hhit
        exact absurd hhit Bool.false_ne_true
  · intro hall
    apply mask_to_bbox_of_not_any
    rw [← Bool.not_eq_true]
    intro hany
    rcases (any_iff_exists_getD _).mp hany with ⟨i, hi⟩
    rw [map_getD_any] at hi
    rcases (any_iff_exists_getD _).mp hi with ⟨j, hj⟩
    rw [show (m.getD i []).getD j false = maskPixel m i j from rfl, hall i j] at hj
    exact Bool.false_ne_true hj

/-- Witness for C9: the tightness clauses at the concrete mask
`[[false, true], [true, false]]` and the degenerate clause at the all-false
mask `[[false]]`. -/
theorem mask_to_bbox_tight_witness :
    ((∀ i j, maskPixel [[false, true], [true, false]] i j = true →
        (mask_to_bbox [[false, true], [true, false]]).x1 ≤ j ∧
        j < (mask_to_bbox [[false, true], [true, false]]).x2 ∧
        (mask_to_bbox [[false, true], [true, false]]).y1 ≤ i ∧
        i < (mask_to_bbox [[false, true], [true, false]]).y2) ∧
      (∃ j, maskPixel [[false, true], [true, false]]
        ((mask_to_bbox [[false, true], [true, false]]).y1) j = true) ∧
      (∃ j, maskPixel [[false, true], [true, false]]
        ((mask_to_bbox [[false, true], [true, false]]).y2 - 1) j = true) ∧
      (∃ i, maskPixel [[false, true], [true, false]] i
        ((mask_to_bbox [[false, true], [true, false]]).x1) = true) ∧
      (∃ i, maskPixel [[false, true], [true, false]] i
        ((mask_to_bbox [[false, true], [true, false]]).x2 - 1) = true)) ∧
    mask_to_bbox [[false]] = ⟨0, 0, 0, 0⟩ :=
  ⟨(mask_to_bbox_tight [[false, true], [true, false]] 2 (by decide)).1
      ⟨0, 1, rfl⟩,
   (mask_to_bbox_tight [[false]] 1 (by decide)).2 (by
      intro i j
      rcases i with _ | i <;> rcases j with _ | j <;> rfl)⟩

/-- C10: the constructor treats falsy arguments as unset — explicit zeros
for all three parameters yield the module defaults `(0.65, 3, 0.5)`, both
`0` and `None` for `top_k` yield the default `3`, and no configuration can
ever make any stored parameter zero. -/
theorem init_falsy_defaults :
    InstanceMatcher.init (some 0) (some 0) (some 0) = ⟨13 / 20, 3, 1 / 2⟩ ∧
    (∀ st nt, (InstanceMatcher.init st (some 0) nt).top_k = 3 ∧
      (InstanceMatcher.init st none nt).top_k = 3) ∧
    (∀ st tk nt, (InstanceMatcher.init st tk nt).similarity_threshold ≠ 0 ∧
      (InstanceMatcher.init st tk nt).top_k ≠ 0 ∧
      (InstanceMatcher.init st tk nt).nms_iou_threshold ≠ 0) := by
  have hq : ∀ (x : Option ℚ) (d : ℚ), d ≠ 0 → pyOrQ x d ≠ 0 := by
    intro x d hd
    cases x with
    | none => exact hd
    | some v =>
        show (if v = 0 then d else v) ≠ 0
        by_cases hv : v = 0
        · rw [if_pos hv]; exact hd
        · rw [if_neg hv]; exact hv
  have hz : ∀ (x : Option ℤ) (d : ℤ), d ≠ 0 → pyOrZ x d ≠ 0 := by
    intro x d hd
    cases x with
    | none => exact hd
    | some v =>
        show (if v = 0 then d else v) ≠ 0
        by_cases hv : v = 0
        · rw [if_pos hv]; exact hd
        · rw [if_neg hv]; exact hv
  refine ⟨?_, ?_, ?_⟩
  · simp [InstanceMatcher.init, pyOrQ, pyOrZ, SIMILARITY_THRESHOLD, TOP_K_MATCHES,
      NMS_IOU_THRESHOLD]
  · intro st nt
    constructor <;>
      simp [InstanceMatcher.init, pyOrZ, TOP_K_MATCHES]
  · intro st tk nt
    exact ⟨hq st _ (by norm_num [SIMILARITY_THRESHOLD]),
      hz tk _ (by norm_num [TOP_K_MATCHES]),
      hq nt _ (by norm_num [NMS_IOU_THRESHOLD])⟩

end ClearCart
